import Mathlib

/-!
Verification of the TopShelf bonus-calculation engine.

Shallow embedding of the code in `src/core/bonus` (engine + services),
`src/domain` and `src/core/tier-rules` of the TopShelf repository.
JavaScript numbers are modelled as rationals; values that may be absent
(`null` / `undefined` / non-numeric fields) are modelled as `Option`.
JavaScript's stable `Array.prototype.sort` is modelled by the stable
`List.insertionSort`.
-/

namespace TopShelf

/-- A tier rule as stored by the tier-rules API and consumed by
`core/bonus/services/utils.js` and `core/tier-rules/routes.js`:
`{ minQuantity, bonusPercentage }`. -/
structure TierRule where
  minQuantity : ℚ
  bonusPercentage : ℚ
deriving DecidableEq

/-- The comparator `(a, b) => a.minQuantity - b.minQuantity` used with the
(stable) JavaScript array sort. -/
def tierLE (a b : TierRule) : Prop := a.minQuantity ≤ b.minQuantity

instance : DecidableRel tierLE := fun a b => inferInstanceAs (Decidable (a.minQuantity ≤ b.minQuantity))

instance : IsTotal TierRule tierLE := ⟨fun a b => le_total a.minQuantity b.minQuantity⟩

instance : IsTrans TierRule tierLE := ⟨fun _ _ _ h h2 => le_trans h h2⟩

/-- `[...tiers].sort((a, b) => a.minQuantity - b.minQuantity)` from
`core/bonus/services/utils.js`. -/
def sortByMinQuantity (tiers : List TierRule) : List TierRule :=
  List.insertionSort tierLE tiers

/-- `getApplicableTier` from `core/bonus/services/utils.js`:
sort ascending by `minQuantity`, keep the tiers with `quantity >= minQuantity`,
take the last one, `null` if none. -/
def getApplicableTier (quantity : ℚ) (tiers : List TierRule) : Option TierRule :=
  ((sortByMinQuantity tiers).filter (fun t => decide (t.minQuantity ≤ quantity))).getLast?

/-- `ForecastChecker.isForecastMet` from `domain/ForecastChecker.js`
(the same computation as the engine's `forecastChecker`, per its unit tests):
`requiredRevenue = monthlyForecast * (thresholdPercent / 100)` and the
forecast is met iff `totalRevenue >= requiredRevenue`. -/
def isForecastMet (thresholdPercent monthlyForecast totalRevenue : ℚ) : Bool :=
  decide (monthlyForecast * (thresholdPercent / 100) ≤ totalRevenue)

/-! Section: Characterization of tier resolution -/

/-- The last element of a list is a member of it. -/
theorem getLast_opt_mem {α : Type} : ∀ {l : List α} {a : α}, l.getLast? = some a → a ∈ l
  | [x], a, h => by
    simp only [List.getLast?_singleton, Option.some.injEq] at h
    simp [h]
  | x :: y :: l, a, h => by
    rw [List.getLast?_cons_cons] at h
    exact List.mem_cons_of_mem x (getLast_opt_mem h)

/-- In a pairwise-`R` list, every member is the last element or `R`-below it. -/
theorem getLast_opt_pairwise {α : Type} {R : α → α → Prop} :
    ∀ {l : List α} {a : α}, List.Pairwise R l → l.getLast? = some a →
      ∀ u ∈ l, u = a ∨ R u a
  | [x], a, _, h, u, hu => by
    simp only [List.getLast?_singleton, Option.some.injEq] at h
    simp only [List.mem_singleton] at hu
    exact Or.inl (hu.trans h)
  | x :: y :: l, a, hp, h, u, hu => by
    rw [List.getLast?_cons_cons] at h
    rcases List.mem_cons.mp hu with rfl | hu
    · exact Or.inr ((List.pairwise_cons.mp hp).1 a (getLast_opt_mem h))
    · exact getLast_opt_pairwise (List.pairwise_cons.mp hp).2 h u hu

/-- When `getApplicableTier` returns a tier, it is a tier of the table,
its threshold is reached by the quantity, and its threshold is the largest
reached one. -/
theorem getApplicableTier_eq_some {quantity : ℚ} {tiers : List TierRule} {t : TierRule}
    (h : getApplicableTier quantity tiers = some t) :
    t ∈ tiers ∧ t.minQuantity ≤ quantity ∧
      ∀ u ∈ tiers, u.minQuantity ≤ quantity → u.minQuantity ≤ t.minQuantity := by
  unfold getApplicableTier at h
  have hperm := List.perm_insertionSort tierLE tiers
  have hsorted : List.Pairwise tierLE (sortByMinQuantity tiers) :=
    List.sorted_insertionSort tierLE tiers
  have hpf : List.Pairwise tierLE
      ((sortByMinQuantity tiers).filter (fun u => decide (u.minQuantity ≤ quantity))) :=
    hsorted.filter _
  have hmemf := getLast_opt_mem h
  have hmem : t ∈ sortByMinQuantity tiers := List.mem_of_mem_filter hmemf
  have hle : t.minQuantity ≤ quantity := by
    have := (List.mem_filter.mp hmemf).2
    simpa using this
  refine ⟨hperm.mem_iff.mp hmem, hle, ?_⟩
  intro u hu huq
  have humem : u ∈ (sortByMinQuantity tiers).filter
      (fun v => decide (v.minQuantity ≤ quantity)) := by
    refine List.mem_filter.mpr ⟨hperm.mem_iff.mpr hu, by simpa using huq⟩
  rcases getLast_opt_pairwise hpf h u humem with rfl | hR
  · exact le_refl _
  · exact hR

/-- `getApplicableTier` returns `null` exactly when the quantity is below
every tier's minimum. -/
theorem getApplicableTier_eq_none {quantity : ℚ} {tiers : List TierRule} :
    getApplicableTier quantity tiers = none ↔
      ∀ u ∈ tiers, quantity < u.minQuantity := by
  unfold getApplicableTier
  rw [List.getLast?_eq_none_iff, List.filter_eq_nil_iff]
  constructor
  · intro h u hu
    have := h u ((List.perm_insertionSort tierLE tiers).mem_iff.mpr hu)
    simpa using this
  · intro h u hu
    have := h u ((List.perm_insertionSort tierLE tiers).mem_iff.mp hu)
    simpa using this

/-- C3: `resolve(q)` returns the tier with the largest `minQuantity` not
exceeding `q`, and `null` when `q` is below every tier's minimum; with tiers
requiring 5, 10 and 15, a quantity of 12 resolves to exactly the 10-tier
(never a blend). -/
theorem resolve_highest_qualifying_tier (tiers : List TierRule) (q : ℚ) :
    (∀ t, getApplicableTier q tiers = some t →
      t ∈ tiers ∧ t.minQuantity ≤ q ∧
        ∀ u ∈ tiers, u.minQuantity ≤ q → u.minQuantity ≤ t.minQuantity) ∧
    (getApplicableTier q tiers = none ↔ ∀ u ∈ tiers, q < u.minQuantity) ∧
    getApplicableTier 12 [⟨5, 5⟩, ⟨10, 10⟩, ⟨15, 15⟩] = some ⟨10, 10⟩ := by
  refine ⟨fun t h => getApplicableTier_eq_some h, getApplicableTier_eq_none, ?_⟩
  decide

/-- Witness for C3 at a concrete table and quantity. -/
theorem resolve_highest_qualifying_tier_witness :
    getApplicableTier 12 [⟨5, 5⟩, ⟨10, 10⟩, ⟨15, 15⟩] = some ⟨10, 10⟩ ∧
      (⟨10, 10⟩ : TierRule) ∈ [⟨5, 5⟩, ⟨10, 10⟩, ⟨15, 15⟩] ∧
      (⟨10, 10⟩ : TierRule).minQuantity ≤ 12 := by
  have h := (resolve_highest_qualifying_tier [⟨5, 5⟩, ⟨10, 10⟩, ⟨15, 15⟩] 12).2.2
  have h2 := (resolve_highest_qualifying_tier [⟨5, 5⟩, ⟨10, 10⟩, ⟨15, 15⟩] 12).1 ⟨10, 10⟩ h
  exact ⟨h, h2.1, h2.2.1⟩

/-! Section: The bonus engine (`core/bonus/engine/bonusCalculator.js`, audit variant) -/

/-- The tier object attached to a sales fact.  Its `bonusPercentage` field may
be absent (the JS guard checks `typeof tier.bonusPercentage === 'number'`). -/
structure SaleTier where
  minQuantity : ℚ
  bonusPercentage : Option ℚ
deriving DecidableEq

/-- One prepared sales fact handed to `BonusCalculator.calculateBonus`:
`{ productName, quantity, revenue, tier }` (`productName` is absent for
PER CATEGORY facts). -/
structure Sale where
  productName : Option String
  quantity : ℚ
  revenue : ℚ
  tier : Option SaleTier
deriving DecidableEq

/-- One line of the itemized result pushed by `calculateBonus`. -/
structure LineItem where
  productName : Option String
  quantity : ℚ
  revenue : ℚ
  tierQualified : Option String
  bonusPercentage : ℚ
  bonus : ℚ
  qualified : Bool
  reason : Option String
deriving DecidableEq

/-- Result of `BonusCalculator.calculateBonus`: `{ totalBonus, items }`. -/
structure BonusResult where
  totalBonus : ℚ
  items : List LineItem
deriving DecidableEq

/-- The qualification guard of `calculateBonus`:
`tier && typeof tier.bonusPercentage === 'number' && tier.bonusPercentage > 0`.
Returns the tier's `minQuantity` and `bonusPercentage` when the sale
qualifies. -/
def saleQualifier (sale : Sale) : Option (ℚ × ℚ) :=
  match sale.tier with
  | none => none
  | some t =>
    match t.bonusPercentage with
    | none => none
    | some p => if 0 < p then some (t.minQuantity, p) else none

/-- The line item pushed for a qualifying sale:
`bonus = revenue * bonusPercentage / 100`, `tierQualified = "<minQuantity>+ items"`. -/
def qualifiedItem (sale : Sale) (minQuantity p : ℚ) : LineItem :=
  ⟨sale.productName, sale.quantity, sale.revenue,
    some (toString minQuantity ++ "+ items"), p, sale.revenue * p / 100, true, none⟩

/-- The line item pushed for a non-qualifying sale:
zero bonus, no tier label, `reason = "Below minimum threshold (sold <quantity>)"`. -/
def notQualifiedItem (sale : Sale) : LineItem :=
  ⟨sale.productName, sale.quantity, sale.revenue, none, 0, 0, false,
    some ("Below minimum threshold (sold " ++ toString sale.quantity ++ ")")⟩

/-- The loop body of `calculateBonus`: accumulate the bonus for qualifying
sales and push one item per sale. -/
def calculateBonusStep (acc : BonusResult) (sale : Sale) : BonusResult :=
  match saleQualifier sale with
  | some (mq, p) =>
    ⟨acc.totalBonus + sale.revenue * p / 100, acc.items ++ [qualifiedItem sale mq p]⟩
  | none => ⟨acc.totalBonus, acc.items ++ [notQualifiedItem sale]⟩

/-- `BonusCalculator.calculateBonus` (the `{ totalBonus, items }` variant used
by `bonusPayouts.js`): empty input yields `{ totalBonus: 0, items: [] }`,
otherwise the loop above. -/
def calculateBonus (salesData : List Sale) : BonusResult :=
  salesData.foldl calculateBonusStep ⟨0, []⟩

/-- The scored line item of one sale, as a function. -/
def scoreSale (sale : Sale) : LineItem :=
  match saleQualifier sale with
  | some (mq, p) => qualifiedItem sale mq p
  | none => notQualifiedItem sale

/-- The bonus contributed by one sale: `revenue * bonusPercentage / 100` when
it qualifies, `0` otherwise. -/
def saleBonus (sale : Sale) : ℚ :=
  match saleQualifier sale with
  | some (_, p) => sale.revenue * p / 100
  | none => 0

/-- The `calculateBonus` loop, run from any accumulator, appends the scored
items and adds the qualifying bonuses. -/
theorem calculateBonus_foldl (salesData : List Sale) :
    ∀ acc : BonusResult,
      salesData.foldl calculateBonusStep acc =
        ⟨acc.totalBonus + (salesData.map saleBonus).sum,
          acc.items ++ salesData.map scoreSale⟩ := by
  induction salesData with
  | nil => intro acc; simp
  | cons sale rest ih =>
    intro acc
    rw [List.foldl_cons, ih]
    have hstep : calculateBonusStep acc sale =
        ⟨acc.totalBonus + saleBonus sale, acc.items ++ [scoreSale sale]⟩ := by
      unfold calculateBonusStep saleBonus scoreSale
      match h : saleQualifier sale with
      | some (mq, p) => simp
      | none => simp
    rw [hstep]
    simp [add_assoc]

/-- `calculateBonus` in closed form. -/
theorem calculateBonus_eq (salesData : List Sale) :
    calculateBonus salesData =
      ⟨(salesData.map saleBonus).sum, salesData.map scoreSale⟩ := by
  unfold calculateBonus
  rw [calculateBonus_foldl]
  simp

/-- C2: each sales fact yields exactly one line item; a fact whose tier is
absent or whose `bonusPercentage` is not a positive number yields a
zero-bonus, no-label item with reason `"Below minimum threshold (sold <quantity>)"`;
a qualifying fact yields `bonusAmount = revenue * bonusPercentage / 100` with
label `"<minQuantity>+ items"`; `totalBonus` is the sum of the qualifying
bonus amounts. -/
theorem bonus_engine_scores_each_fact (salesData : List Sale) :
    (calculateBonus salesData).items.length = salesData.length ∧
    (∀ i sale, salesData.get? i = some sale →
      ∃ item, (calculateBonus salesData).items.get? i = some item ∧
        (saleQualifier sale = none →
          item.bonus = 0 ∧ item.qualified = false ∧ item.tierQualified = none ∧
          item.reason =
            some ("Below minimum threshold (sold " ++ toString sale.quantity ++ ")")) ∧
        (∀ mq p, saleQualifier sale = some (mq, p) →
          item.bonus = sale.revenue * p / 100 ∧ item.qualified = true ∧
          item.tierQualified = some (toString mq ++ "+ items") ∧
          item.reason = none ∧ item.bonusPercentage = p)) ∧
    (calculateBonus salesData).totalBonus = (salesData.map saleBonus).sum := by
  rw [calculateBonus_eq]
  refine ⟨by simp, ?_, rfl⟩
  intro i sale h
  refine ⟨scoreSale sale, ?_, ?_, ?_⟩
  · rw [List.get?_eq_getElem?] at h ⊢
    simp only [List.getElem?_map, h, Option.map_some']
  · intro hq
    simp [scoreSale, hq, notQualifiedItem]
  · intro mq p hq
    simp [scoreSale, hq, qualifiedItem]

/-- Witness for C2: a two-fact list, one qualifying fact (tier 5+, 10%) and
one non-qualifying fact (no tier). -/
theorem bonus_engine_scores_each_fact_witness :
    ∃ item,
      (calculateBonus [⟨some "Ribeye", 5, 500, some ⟨5, some 10⟩⟩,
        ⟨some "Sorbet", 1, 50, none⟩]).items.get? 0 = some item ∧
      item.bonus = (500 : ℚ) * 10 / 100 ∧ item.qualified = true := by
  have h := (bonus_engine_scores_each_fact
    [⟨some "Ribeye", 5, 500, some ⟨5, some 10⟩⟩, ⟨some "Sorbet", 1, 50, none⟩]).2.1
    0 ⟨some "Ribeye", 5, 500, some ⟨5, some 10⟩⟩ rfl
  rcases h with ⟨item, hi, _, hqual⟩
  have hq := hqual 5 10 rfl
  exact ⟨item, hi, hq.1, hq.2.1⟩

/-! Section: The aggregator (`core/bonus/services/utils.js`, `formatDataForCalculation`) -/

/-- A receipt as read by the aggregator: `receipt.product.name` and
`receipt.price`. -/
structure Receipt where
  productName : String
  price : ℚ
deriving DecidableEq

/-- The single PER CATEGORY sales fact `{ quantity, revenue, tier }`. -/
structure CatFact where
  quantity : ℚ
  revenue : ℚ
  tier : Option TierRule
deriving DecidableEq

/-- One PER ITEM sales fact `{ productName, quantity, revenue, tier }`. -/
structure ItemFact where
  productName : String
  quantity : ℚ
  revenue : ℚ
  tier : Option TierRule
deriving DecidableEq

/-- `formatDataForCalculation` returns a single object in PER CATEGORY mode
and an array in the other branches. -/
inductive FormatResult where
  | fact : CatFact → FormatResult
  | facts : List ItemFact → FormatResult
deriving DecidableEq

/-- One step of building `salesMap`: bump the entry for `name` (JS object,
string keys, insertion order preserved), creating it at the end if absent. -/
def salesMapUpsert : List (String × ℚ × ℚ) → String → ℚ → List (String × ℚ × ℚ)
  | [], name, price => [(name, 1, price)]
  | e :: rest, name, price =>
    if e.1 = name then (e.1, e.2.1 + 1, e.2.2 + price) :: rest
    else e :: salesMapUpsert rest name price

/-- The `salesMap` of the PER ITEM branch: for each receipt,
`salesMap[name].quantity += 1; salesMap[name].revenue += receipt.price`. -/
def buildSalesMap (receipts : List Receipt) : List (String × ℚ × ℚ) :=
  receipts.foldl (fun m r => salesMapUpsert m r.productName r.price) []

/-- `formatDataForCalculation(receipts, mode, tiers)` from
`core/bonus/services/utils.js`: one aggregate object in `'PER CATEGORY'`
mode, one fact per distinct product in `'PER ITEM'` mode, and a silent `[]`
for every other mode. -/
def formatDataForCalculation (receipts : List Receipt) (mode : String)
    (tiers : List TierRule) : FormatResult :=
  if mode = "PER CATEGORY" then
    .fact ⟨(receipts.length : ℚ), receipts.foldl (fun s r => s + r.price) 0,
      getApplicableTier (receipts.length : ℚ) tiers⟩
  else if mode = "PER ITEM" then
    .facts ((buildSalesMap receipts).map
      (fun e => ⟨e.1, e.2.1, e.2.2, getApplicableTier e.2.1 tiers⟩))
  else .facts []

/-- Linear lookup in the sales map (JS property access). -/
def lookupName : List (String × ℚ × ℚ) → String → Option (ℚ × ℚ)
  | [], _ => none
  | e :: rest, n => if e.1 = n then some e.2 else lookupName rest n

/-- How an upsert changes lookups. -/
theorem lookupName_upsert (m : List (String × ℚ × ℚ)) (name : String) (price : ℚ)
    (x : String) :
    lookupName (salesMapUpsert m name price) x =
      if x = name then
        match lookupName m name with
        | some qr => some (qr.1 + 1, qr.2 + price)
        | none => some (1, price)
      else lookupName m x := by
  induction m with
  | nil =>
    by_cases hx : x = name
    · subst hx
      simp [salesMapUpsert, lookupName]
    · have hx2 : ¬ name = x := fun h => hx h.symm
      simp [salesMapUpsert, lookupName, hx, hx2]
  | cons e rest ih =>
    by_cases he : e.1 = name
    · by_cases hx : x = name
      · subst hx
        simp [salesMapUpsert, lookupName, he]
      · have hex : ¬ e.1 = x := fun h => hx (h.symm.trans he)
        have hx2 : ¬ name = x := fun h => hx h.symm
        simp [salesMapUpsert, lookupName, he, hx, hex, hx2]
    · by_cases hex : e.1 = x
      · have hx : ¬ x = name := fun h => he (hex.trans h)
        simp [salesMapUpsert, lookupName, he, hex, hx]
      · simp [salesMapUpsert, lookupName, he, hex, ih]

/-- Upserting only adds the key `name`. -/
theorem mem_keys_upsert (m : List (String × ℚ × ℚ)) (name : String) (price : ℚ)
    (x : String) :
    x ∈ (salesMapUpsert m name price).map Prod.fst ↔
      x ∈ m.map Prod.fst ∨ x = name := by
  induction m with
  | nil => simp [salesMapUpsert, eq_comm]
  | cons e rest ih =>
    by_cases he : e.1 = name
    · rw [salesMapUpsert, if_pos he]
      by_cases hx : x = name
      · subst hx
        simp [he]
      · simp [he, hx]
    · rw [salesMapUpsert, if_neg he]
      simp only [List.map_cons, List.mem_cons, ih]
      tauto

/-- Upserting preserves distinctness of the keys. -/
theorem nodup_keys_upsert {m : List (String × ℚ × ℚ)} (name : String) (price : ℚ)
    (h : (m.map Prod.fst).Nodup) :
    ((salesMapUpsert m name price).map Prod.fst).Nodup := by
  induction m with
  | nil => simp [salesMapUpsert]
  | cons e rest ih =>
    simp only [List.map_cons, List.nodup_cons] at h
    by_cases he : e.1 = name
    · rw [salesMapUpsert, if_pos he]
      simp only [List.map_cons, List.nodup_cons]
      exact ⟨h.1, h.2⟩
    · rw [salesMapUpsert, if_neg he]
      simp only [List.map_cons, List.nodup_cons]
      refine ⟨?_, ih h.2⟩
      rw [mem_keys_upsert]
      push_neg
      exact ⟨h.1, he⟩

/-- With distinct keys, membership in the sales map is lookup. -/
theorem mem_iff_lookupName {m : List (String × ℚ × ℚ)}
    (h : (m.map Prod.fst).Nodup) (e : String × ℚ × ℚ) :
    e ∈ m ↔ lookupName m e.1 = some e.2 := by
  induction m with
  | nil => simp [lookupName]
  | cons f rest ih =>
    simp only [List.map_cons, List.nodup_cons] at h
    by_cases hf : f.1 = e.1
    · have hne : e ∉ rest := by
        intro hmem
        exact h.1 (hf ▸ List.mem_map_of_mem Prod.fst hmem)
      simp only [lookupName, if_pos hf, List.mem_cons, Option.some.injEq]
      constructor
      · rintro (rfl | hmem)
        · rfl
        · exact absurd hmem hne
      · intro h2
        left
        rcases e with ⟨e1, e2⟩
        rcases f with ⟨f1, f2⟩
        simp only at hf h2
        rw [hf, h2]
    · have hne : ¬ e = f := fun hef => hf (hef ▸ rfl)
      simp only [lookupName, if_neg hf, List.mem_cons]
      rw [ih h.2]
      simp [hne]

/-- Folding the receipts from any starting map: the final lookup of `x`
adds the number of receipts for `x` and the sum of their prices. -/
theorem lookupName_buildFrom (receipts : List Receipt) :
    ∀ (m : List (String × ℚ × ℚ)) (x : String),
      lookupName (receipts.foldl (fun m r => salesMapUpsert m r.productName r.price) m) x =
        match lookupName m x with
        | some qr =>
          some (qr.1 + (receipts.countP (fun r => decide (r.productName = x)) : ℚ),
            qr.2 + ((receipts.filter (fun r => decide (r.productName = x))).map Receipt.price).sum)
        | none =>
          if (receipts.countP (fun r => decide (r.productName = x)) : ℚ) = 0 then none
          else some ((receipts.countP (fun r => decide (r.productName = x)) : ℚ),
            ((receipts.filter (fun r => decide (r.productName = x))).map Receipt.price).sum) := by
  induction receipts with
  | nil =>
    intro m x
    match h : lookupName m x with
    | some qr => simp [List.countP_nil]
    | none => simp [List.countP_nil]
  | cons r rest ih =>
    intro m x
    rw [List.foldl_cons, ih, lookupName_upsert]
    by_cases hx : x = r.productName
    · subst hx
      rw [if_pos rfl]
      have hcnt : (List.countP (fun s => decide (s.productName = r.productName))
            (r :: rest) : ℚ) =
          1 + (List.countP (fun s => decide (s.productName = r.productName)) rest : ℚ) := by
        rw [List.countP_cons]
        simp only [decide_eq_true_eq, if_pos rfl]
        push_cast
        ring
      have hsum : ((List.filter (fun s => decide (s.productName = r.productName))
            (r :: rest)).map Receipt.price).sum =
          r.price + ((List.filter (fun s => decide (s.productName = r.productName)) rest).map
            Receipt.price).sum := by
        rw [List.filter_cons]
        simp
      match h : lookupName m r.productName with
      | some qr =>
        simp only [h, hcnt, hsum]
        simp only [Option.some.injEq, Prod.mk.injEq]
        constructor <;> ring
      | none =>
        have hne : ¬ ((1 : ℚ) + (List.countP (fun s => decide (s.productName = r.productName))
            rest : ℚ) = 0) := by
          positivity
        simp only [h, hcnt, hsum, if_neg hne]
    · have hx2 : ¬ r.productName = x := fun h => hx h.symm
      have hcnt : List.countP (fun s => decide (s.productName = x)) (r :: rest) =
          List.countP (fun s => decide (s.productName = x)) rest := by
        rw [List.countP_cons]
        simp [hx2]
      have hsum : List.filter (fun s => decide (s.productName = x)) (r :: rest) =
          List.filter (fun s => decide (s.productName = x)) rest := by
        rw [List.filter_cons]
        simp [hx2]
      rw [if_neg hx, hcnt, hsum]

/-- The sales map has pairwise-distinct keys. -/
theorem nodup_keys_buildSalesMap (receipts : List Receipt) :
    ((buildSalesMap receipts).map Prod.fst).Nodup := by
  unfold buildSalesMap
  suffices h : ∀ (m : List (String × ℚ × ℚ)), (m.map Prod.fst).Nodup →
      ((receipts.foldl (fun m r => salesMapUpsert m r.productName r.price) m).map
        Prod.fst).Nodup by
    exact h [] (by simp)
  induction receipts with
  | nil => intro m hm; simpa using hm
  | cons r rest ih =>
    intro m hm
    rw [List.foldl_cons]
    exact ih _ (nodup_keys_upsert r.productName r.price hm)

/-- The sales map's keys are exactly the product names observed. -/
theorem mem_keys_buildSalesMap (receipts : List Receipt) (x : String) :
    x ∈ (buildSalesMap receipts).map Prod.fst ↔
      x ∈ receipts.map Receipt.productName := by
  unfold buildSalesMap
  suffices h : ∀ (m : List (String × ℚ × ℚ)),
      (x ∈ (receipts.foldl (fun m r => salesMapUpsert m r.productName r.price) m).map
        Prod.fst ↔ x ∈ m.map Prod.fst ∨ x ∈ receipts.map Receipt.productName) by
    rw [h []]
    simp
  induction receipts with
  | nil => intro m; simp
  | cons r rest ih =>
    intro m
    rw [List.foldl_cons, ih, mem_keys_upsert]
    simp only [List.map_cons, List.mem_cons]
    tauto

/-- Sum of prices as a left fold (the JS `reduce`). -/
theorem foldl_price_sum (receipts : List Receipt) :
    receipts.foldl (fun s r => s + r.price) 0 = (receipts.map Receipt.price).sum := by
  suffices h : ∀ a : ℚ, receipts.foldl (fun s r => s + r.price) a =
      a + (receipts.map Receipt.price).sum by
    rw [h 0, zero_add]
  induction receipts with
  | nil => intro a; simp
  | cons r rest ih =>
    intro a
    rw [List.foldl_cons, ih]
    simp [add_assoc]

/-- C6: PER CATEGORY aggregation gives one fact with the receipt count,
the total price and the tier resolved on the count; PER ITEM aggregation
gives exactly one fact per distinct product, with quantity, revenue and
tier all scoped to that product alone. -/
theorem aggregation_modes (receipts : List Receipt) (tiers : List TierRule)
    (_hne : receipts ≠ []) :
    formatDataForCalculation receipts "PER CATEGORY" tiers =
      .fact ⟨(receipts.length : ℚ), (receipts.map Receipt.price).sum,
        getApplicableTier (receipts.length : ℚ) tiers⟩ ∧
    (∃ fs, formatDataForCalculation receipts "PER ITEM" tiers = .facts fs ∧
      (fs.map ItemFact.productName).Nodup ∧
      (∀ n, n ∈ fs.map ItemFact.productName ↔ n ∈ receipts.map Receipt.productName) ∧
      ∀ f ∈ fs,
        f.quantity = (receipts.countP (fun r => decide (r.productName = f.productName)) : ℚ) ∧
        f.revenue = ((receipts.filter (fun r => decide (r.productName = f.productName))).map
          Receipt.price).sum ∧
        f.tier = getApplicableTier f.quantity tiers) := by
  constructor
  · unfold formatDataForCalculation
    rw [if_pos rfl, foldl_price_sum]
  · refine ⟨(buildSalesMap receipts).map
      (fun e => ⟨e.1, e.2.1, e.2.2, getApplicableTier e.2.1 tiers⟩), ?_, ?_, ?_, ?_⟩
    · unfold formatDataForCalculation
      rw [if_neg (by decide), if_pos rfl]
    · have hnames : ((buildSalesMap receipts).map
          (fun e : String × ℚ × ℚ =>
            (⟨e.1, e.2.1, e.2.2, getApplicableTier e.2.1 tiers⟩ : ItemFact))).map
            ItemFact.productName =
          (buildSalesMap receipts).map Prod.fst := by
        rw [List.map_map]
        rfl
      rw [hnames]
      exact nodup_keys_buildSalesMap receipts
    · intro n
      have hnames : ((buildSalesMap receipts).map
          (fun e : String × ℚ × ℚ =>
            (⟨e.1, e.2.1, e.2.2, getApplicableTier e.2.1 tiers⟩ : ItemFact))).map
            ItemFact.productName =
          (buildSalesMap receipts).map Prod.fst := by
        rw [List.map_map]
        rfl
      rw [hnames]
      exact mem_keys_buildSalesMap receipts n
    · intro f hf
      rcases List.mem_map.mp hf with ⟨e, he, rfl⟩
      have hlook : lookupName (buildSalesMap receipts) e.1 = some e.2 :=
        (mem_iff_lookupName (nodup_keys_buildSalesMap receipts) e).mp he
      have hchar := lookupName_buildFrom receipts [] e.1
      rw [show (receipts.foldl (fun m r => salesMapUpsert m r.productName r.price) []) =
        buildSalesMap receipts from rfl, hlook] at hchar
      simp only [lookupName] at hchar
      by_cases hz : (receipts.countP (fun r => decide (r.productName = e.1)) : ℚ) = 0
      · rw [if_pos hz] at hchar
        exact absurd hchar (by simp)
      · rw [if_neg hz] at hchar
        have he2 : e.2 = ((receipts.countP (fun r => decide (r.productName = e.1)) : ℚ),
            ((receipts.filter (fun r => decide (r.productName = e.1))).map
              Receipt.price).sum) := by
          exact Option.some_injective _ hchar
        refine ⟨?_, ?_, rfl⟩
        · exact congrArg Prod.fst he2
        · exact congrArg Prod.snd he2

/-- Witness for C6: one receipt of one product aggregated PER CATEGORY. -/
theorem aggregation_modes_witness :
    ([(⟨"Mojito", 10⟩ : Receipt)] ≠ ([] : List Receipt)) ∧
      formatDataForCalculation [⟨"Mojito", 10⟩] "PER CATEGORY" [] =
        .fact ⟨1, 10, none⟩ := by
  refine ⟨by simp, ?_⟩
  rw [(aggregation_modes [⟨"Mojito", 10⟩] [] (by simp)).1]
  norm_num
  rfl

/-! Section: The legacy engine dispatch (`domain/BonusCalculator.js`) -/

/-- A raw tier as handed to `TierConfig` / `BonusRule`: either field may be
non-numeric (`none`). -/
structure RawTier where
  minQuantity : Option ℚ
  percentage : Option ℚ
deriving DecidableEq

/-- A validated tier of `TierConfig`: `{ minQuantity, percentage }` with the
percentage a fraction in `[0,1]`. -/
structure NormTier where
  minQuantity : ℚ
  percentage : ℚ
deriving DecidableEq

/-- `getApplicableTier` of `TierConfig` / `BonusRule`: scan the (stored,
sorted) tiers and keep the last one whose `minQuantity` is reached. -/
def scanApplicableTier (quantity : ℚ) (tiers : List NormTier) : Option NormTier :=
  tiers.foldl (fun acc t => if t.minQuantity ≤ quantity then some t else acc) none

/-- `#calculatePerItemBonus` of `domain/BonusCalculator.js`. -/
def perItemBonus (tiers : List NormTier) (items : List (String × ℚ × ℚ)) : ℚ :=
  items.foldl (fun total i =>
    match scanApplicableTier i.2.1 tiers with
    | none => total
    | some t => total + i.2.2 * t.percentage) 0

/-- `#aggregateCategory` of `domain/BonusCalculator.js`. -/
def aggregateCategory (items : List (String × ℚ × ℚ)) : ℚ × ℚ :=
  items.foldl (fun acc i => (acc.1 + i.2.1, acc.2 + i.2.2)) (0, 0)

/-- `#calculatePerCategoryBonus` of `domain/BonusCalculator.js`. -/
def perCategoryBonus (tiers : List NormTier) (items : List (String × ℚ × ℚ)) : ℚ :=
  match scanApplicableTier (aggregateCategory items).1 tiers with
  | none => 0
  | some t => (aggregateCategory items).2 * t.percentage

/-- `BonusCalculator.calculateBonus` of `domain/BonusCalculator.js`: `0` for
missing data, mode dispatch, and a thrown error for unsupported modes. -/
def domainCalculateBonus (mode : String) (tiers : List NormTier)
    (salesData : Option (List (String × ℚ × ℚ))) : Except String ℚ :=
  match salesData with
  | none => .ok 0
  | some items =>
    if mode = "PER ITEM" then .ok (perItemBonus tiers items)
    else if mode = "PER CATEGORY" then .ok (perCategoryBonus tiers items)
    else .error ("Unsupported bonus calculation mode: " ++ mode)

/-- C7 counterexample: the aggregator, called with an unknown mode, silently
returns the empty array instead of failing. -/
theorem unknown_mode_counterexample :
    formatDataForCalculation [⟨"Steak", 50⟩] "UNKNOWN_MODE" [⟨1, 10⟩] = .facts [] := by
  rfl

/-- C7 amended: for every unknown mode the aggregator silently returns the
empty array (it is total, so no error can be raised), while the legacy
domain `BonusCalculator.calculateBonus` is the code path that fails on
unsupported modes. -/
theorem unknown_mode_amended (mode : String) (receipts : List Receipt)
    (tiers : List TierRule) (tiers2 : List NormTier)
    (items : List (String × ℚ × ℚ))
    (h1 : mode ≠ "PER CATEGORY") (h2 : mode ≠ "PER ITEM") :
    formatDataForCalculation receipts mode tiers = .facts [] ∧
    domainCalculateBonus mode tiers2 (some items) =
      .error ("Unsupported bonus calculation mode: " ++ mode) := by
  constructor
  · unfold formatDataForCalculation
    rw [if_neg h1, if_neg h2]
  · show (if mode = "PER ITEM" then Except.ok (perItemBonus tiers2 items)
      else if mode = "PER CATEGORY" then Except.ok (perCategoryBonus tiers2 items)
      else Except.error ("Unsupported bonus calculation mode: " ++ mode)) =
      Except.error ("Unsupported bonus calculation mode: " ++ mode)
    rw [if_neg h2, if_neg h1]

/-- Witness for C7 amended at the mode `"UNKNOWN_MODE"`. -/
theorem unknown_mode_amended_witness :
    formatDataForCalculation [] "UNKNOWN_MODE" [] = .facts [] ∧
    domainCalculateBonus "UNKNOWN_MODE" [] (some []) =
      .error ("Unsupported bonus calculation mode: " ++ "UNKNOWN_MODE") := by
  exact unknown_mode_amended "UNKNOWN_MODE" [] [] [] []
    (by decide) (by decide)

/-! Section: TierConfig construction (`core/bonus/engine/tierConfig.js`) -/

/-- One tier check of `#validateAndNormalizeTiers`: both fields must be
numbers and the percentage must lie in `[0,1]` (the code rejects
`percentage < 0 || percentage > 1`). -/
def normalizeTier (t : RawTier) : Except String NormTier :=
  match t.minQuantity, t.percentage with
  | some mq, some p =>
    if p < 0 ∨ 1 < p then .error "percentage must be between 0 and 1"
    else .ok ⟨mq, p⟩
  | _, _ => .error "Invalid tier format"

/-- The `tiers.map(...)` of `#validateAndNormalizeTiers`: normalize each
tier, the first thrown error wins. -/
def mapNormalize : List RawTier → Except String (List NormTier)
  | [] => .ok []
  | t :: ts =>
    match normalizeTier t with
    | .error e => .error e
    | .ok v =>
      match mapNormalize ts with
      | .error e => .error e
      | .ok vs => .ok (v :: vs)

/-- Comparator of the final `normalized.sort((a, b) => a.minQuantity - b.minQuantity)`. -/
def normLE (a b : NormTier) : Prop := a.minQuantity ≤ b.minQuantity

instance : DecidableRel normLE := fun a b => inferInstanceAs (Decidable (a.minQuantity ≤ b.minQuantity))

instance : IsTotal NormTier normLE := ⟨fun a b => le_total a.minQuantity b.minQuantity⟩

instance : IsTrans NormTier normLE := ⟨fun _ _ _ h h2 => le_trans h h2⟩

/-- `TierConfig.#validateAndNormalizeTiers`: reject an empty collection,
normalize every tier, and store them sorted ascending by `minQuantity`. -/
def validateAndNormalizeTiers (tiers : List RawTier) : Except String (List NormTier) :=
  if tiers = [] then .error "tiers must be a non-empty array"
  else
    match mapNormalize tiers with
    | .error e => .error e
    | .ok normalized => .ok (List.insertionSort normLE normalized)

/-- `normalizeTier` succeeds exactly on numeric tiers with percentage in `[0,1]`. -/
theorem normalizeTier_ok_iff (t : RawTier) :
    (∃ v, normalizeTier t = .ok v) ↔
      ((∃ mq, t.minQuantity = some mq) ∧
        ∃ p, t.percentage = some p ∧ 0 ≤ p ∧ p ≤ 1) := by
  rcases t with ⟨mq, p⟩
  match mq, p with
  | none, _ => simp [normalizeTier]
  | some mq, none => simp [normalizeTier]
  | some mq, some p =>
    simp only [normalizeTier, Option.some.injEq]
    by_cases h : p < 0 ∨ 1 < p
    · rw [if_pos h]
      constructor
      · rintro ⟨v, hv⟩
        exact absurd hv (by simp)
      · rintro ⟨-, p2, hp2, h0, h1⟩
        subst hp2
        exfalso
        rcases h with h | h <;> linarith
    · rw [if_neg h]
      push_neg at h
      constructor
      · rintro -
        exact ⟨⟨mq, rfl⟩, p, rfl, h.1, h.2⟩
      · rintro -
        exact ⟨⟨mq, p⟩, rfl⟩

/-- `mapNormalize` succeeds exactly when every tier normalizes. -/
theorem mapNormalize_ok_iff (ts : List RawTier) :
    (∃ l, mapNormalize ts = .ok l) ↔ ∀ t ∈ ts, ∃ v, normalizeTier t = .ok v := by
  induction ts with
  | nil => simp [mapNormalize]
  | cons t ts ih =>
    constructor
    · rintro ⟨l, hl⟩
      rw [mapNormalize] at hl
      match h : normalizeTier t with
      | .error e => rw [h] at hl; exact absurd hl (by simp)
      | .ok v =>
        rw [h] at hl
        match h2 : mapNormalize ts with
        | .error e => rw [h2] at hl; exact absurd hl (by simp)
        | .ok vs =>
          intro u hu
          rcases List.mem_cons.mp hu with rfl | hu
          · exact ⟨v, h⟩
          · exact (ih.mp ⟨vs, h2⟩) u hu
    · intro h
      rcases h t (List.mem_cons_self t ts) with ⟨v, hv⟩
      rcases ih.mpr (fun u hu => h u (List.mem_cons_of_mem t hu)) with ⟨vs, hvs⟩
      exact ⟨v :: vs, by rw [mapNormalize, hv, hvs]⟩

/-- On success, `mapNormalize` returns the pointwise normalizations. -/
theorem mapNormalize_ok_eq : ∀ {ts : List RawTier} {l : List NormTier},
    mapNormalize ts = .ok l →
      l = ts.filterMap (fun t => (normalizeTier t).toOption)
  | [], l, h => by
    simp only [mapNormalize, Except.ok.injEq] at h
    simp [← h]
  | t :: ts, l, h => by
    rw [mapNormalize] at h
    match h1 : normalizeTier t with
    | .error e => rw [h1] at h; exact absurd h (by simp)
    | .ok v =>
      rw [h1] at h
      match h2 : mapNormalize ts with
      | .error e => rw [h2] at h; exact absurd h (by simp)
      | .ok vs =>
        rw [h2] at h
        simp only [Except.ok.injEq] at h
        rw [List.filterMap_cons, h1]
        simp only [Except.toOption]
        rw [← h, mapNormalize_ok_eq h2]
        rfl

/-- C8 counterexample: `TierConfig` construction accepts two tiers sharing a
`minQuantity` (with non-increasing percentages), yet rejects a
`bonusPercentage` of `50`, which the claim places inside the accepted
range `(0,100]`. -/
theorem tier_construction_counterexample :
    validateAndNormalizeTiers [⟨some 1, some 1⟩, ⟨some 1, some 0⟩] =
      .ok [⟨1, 1⟩, ⟨1, 0⟩] ∧
    validateAndNormalizeTiers [⟨some 5, some 50⟩] =
      .error "percentage must be between 0 and 1" := by
  constructor
  · rfl
  · rfl

/-- C8 amended: construction fails exactly when the collection is empty,
some entry is non-numeric, or some percentage lies outside `[0,1]`;
duplicate thresholds, duplicate percentages and non-monotone percentages
are not checked here.  On success the stored tiers are sorted ascending by
`minQuantity` and are a permutation of the normalized input. -/
theorem tier_construction_amended (tiers : List RawTier) :
    ((∃ l, validateAndNormalizeTiers tiers = .ok l) ↔
      (tiers ≠ [] ∧ ∀ t ∈ tiers, (∃ mq, t.minQuantity = some mq) ∧
        ∃ p, t.percentage = some p ∧ 0 ≤ p ∧ p ≤ 1)) ∧
    (∀ l, validateAndNormalizeTiers tiers = .ok l →
      List.Sorted normLE l ∧
      l.Perm (tiers.filterMap (fun t => (normalizeTier t).toOption))) := by
  constructor
  · by_cases hnil : tiers = []
    · subst hnil
      rw [validateAndNormalizeTiers, if_pos rfl]
      simp
    · rw [validateAndNormalizeTiers, if_neg hnil]
      constructor
      · rintro ⟨l, hl⟩
        refine ⟨hnil, ?_⟩
        match h : mapNormalize tiers with
        | .error e => rw [h] at hl; exact absurd hl (by simp)
        | .ok vs =>
          intro t ht
          exact (normalizeTier_ok_iff t).mp ((mapNormalize_ok_iff tiers).mp ⟨vs, h⟩ t ht)
      · rintro ⟨-, hall⟩
        rcases (mapNormalize_ok_iff tiers).mpr
          (fun t ht => (normalizeTier_ok_iff t).mpr (hall t ht)) with ⟨vs, hvs⟩
        exact ⟨List.insertionSort normLE vs, by rw [hvs]⟩
  · intro l hl
    by_cases hnil : tiers = []
    · subst hnil
      rw [validateAndNormalizeTiers, if_pos rfl] at hl
      exact absurd hl (by simp)
    · rw [validateAndNormalizeTiers, if_neg hnil] at hl
      match h : mapNormalize tiers with
      | .error e => rw [h] at hl; exact absurd hl (by simp)
      | .ok vs =>
        rw [h] at hl
        simp only [Except.ok.injEq] at hl
        subst hl
        refine ⟨List.sorted_insertionSort normLE vs, ?_⟩
        rw [← mapNormalize_ok_eq h]
        exact List.perm_insertionSort normLE vs

/-- Witness for C8 amended at a concrete accepted collection. -/
theorem tier_construction_amended_witness :
    validateAndNormalizeTiers [⟨some 10, some 1⟩, ⟨some 5, some 0⟩] =
      .ok [⟨5, 0⟩, ⟨10, 1⟩] ∧
    List.Sorted normLE [⟨(5 : ℚ), (0 : ℚ)⟩, ⟨10, 1⟩] := by
  have heq : validateAndNormalizeTiers [⟨some 10, some 1⟩, ⟨some 5, some 0⟩] =
      .ok [⟨5, 0⟩, ⟨10, 1⟩] := by rfl
  have h := (tier_construction_amended [⟨some 10, some 1⟩, ⟨some 5, some 0⟩]).2
    [⟨5, 0⟩, ⟨10, 1⟩] heq
  exact ⟨heq, h.1⟩

/-! Section: Tier-rules API validation (`core/tier-rules/routes.js`) -/

/-- The scan behind `filter((q, i) => indexOf(q) !== i)[0]`: first value
equal to an earlier one. -/
def firstDupAux (seen : List ℚ) : List ℚ → Option ℚ
  | [] => none
  | x :: xs => if x ∈ seen then some x else firstDupAux (seen ++ [x]) xs

/-- First duplicated value of a list, if any. -/
def firstDuplicate (l : List ℚ) : Option ℚ := firstDupAux [] l

/-- The strictly-increasing check of `validateTierRulesLogic`: walk the
sorted tiers and report the first non-increase. -/
def strictIncreaseError : List TierRule → Option String
  | a :: b :: rest =>
    if b.bonusPercentage ≤ a.bonusPercentage then
      some ("Bonus must strictly increase. Tier at minQuantity " ++
        toString b.minQuantity ++ " has bonus " ++ toString b.bonusPercentage ++
        "% which is not greater than previous tier's bonus " ++
        toString a.bonusPercentage ++ "%")
    else strictIncreaseError (b :: rest)
  | _ => none

/-- `validateTierRulesLogic` from `core/tier-rules/routes.js`, applied to the
combined tier list: duplicate `minQuantity`, duplicate `bonusPercentage`,
and strictly increasing bonuses after sorting by `minQuantity`. -/
def validateTierRulesLogic (allTiers : List TierRule) : List String :=
  (match firstDuplicate (allTiers.map TierRule.minQuantity) with
    | some q => ["Duplicate minQuantity value: " ++ toString q ++
        ". Each tier must have a unique threshold."]
    | none => []) ++
  (match firstDuplicate (allTiers.map TierRule.bonusPercentage) with
    | some b => ["Duplicate bonusPercentage value: " ++ toString b ++
        "%. Each tier must have a unique bonus."]
    | none => []) ++
  (match strictIncreaseError (sortByMinQuantity allTiers) with
    | some e => [e]
    | none => [])

/-- `firstDupAux` finds nothing exactly on duplicate-free lists disjoint from
the already-seen values. -/
theorem firstDupAux_eq_none : ∀ (l : List ℚ) (seen : List ℚ),
    firstDupAux seen l = none ↔ (l.Nodup ∧ ∀ x ∈ l, x ∉ seen)
  | [], seen => by simp [firstDupAux]
  | x :: xs, seen => by
    rw [firstDupAux]
    by_cases hx : x ∈ seen
    · rw [if_pos hx]
      constructor
      · intro h
        exact absurd h (by simp)
      · rintro ⟨-, hall⟩
        exact absurd hx (hall x (List.mem_cons_self x xs))
    · rw [if_neg hx, firstDupAux_eq_none xs (seen ++ [x])]
      constructor
      · rintro ⟨hnd, hall⟩
        refine ⟨List.nodup_cons.mpr ⟨?_, hnd⟩, ?_⟩
        · intro hmem
          have := hall x hmem
          simp at this
        · intro y hy
          rcases List.mem_cons.mp hy with rfl | hy
          · exact hx
          · have := hall y hy
            simp only [List.mem_append, List.mem_singleton, not_or] at this
            exact this.1
      · rintro ⟨hnd, hall⟩
        rcases List.nodup_cons.mp hnd with ⟨hxx, hnd2⟩
        refine ⟨hnd2, ?_⟩
        intro y hy
        simp only [List.mem_append, List.mem_singleton, not_or]
        exact ⟨hall y (List.mem_cons_of_mem x hy), fun hyx => hxx (hyx ▸ hy)⟩

/-- The strictly-increasing check passes exactly on chains of strictly
increasing bonus percentages. -/
theorem strictIncreaseError_eq_none : ∀ (l : List TierRule),
    strictIncreaseError l = none ↔
      l.Chain' (fun a b => a.bonusPercentage < b.bonusPercentage)
  | [] => by simp [strictIncreaseError]
  | [a] => by simp [strictIncreaseError]
  | a :: b :: rest => by
    rw [strictIncreaseError]
    by_cases h : b.bonusPercentage ≤ a.bonusPercentage
    · rw [if_pos h]
      rw [List.chain'_cons]
      constructor
      · intro hc
        exact absurd hc (by simp)
      · rintro ⟨hab, -⟩
        exfalso
        linarith
    · rw [if_neg h, strictIncreaseError_eq_none (b :: rest), List.chain'_cons]
      push_neg at h
      simp [h]

/-- A clean validation implies no duplicate `minQuantity` and a strictly
increasing percentage chain on the sorted tiers. -/
theorem validateTierRulesLogic_eq_nil {tiers : List TierRule}
    (h : validateTierRulesLogic tiers = []) :
    firstDuplicate (tiers.map TierRule.minQuantity) = none ∧
    strictIncreaseError (sortByMinQuantity tiers) = none := by
  unfold validateTierRulesLogic at h
  constructor
  · match h1 : firstDuplicate (tiers.map TierRule.minQuantity) with
    | none => rfl
    | some q =>
      rw [h1] at h
      simp at h
  · match h3 : strictIncreaseError (sortByMinQuantity tiers) with
    | none => rfl
    | some e =>
      rw [h3] at h
      simp at h

instance : IsTrans TierRule (fun a b => a.bonusPercentage < b.bonusPercentage) :=
  ⟨fun _ _ _ h h2 => lt_trans h h2⟩

/-- In a list pairwise ordered by `minQuantity` and strictly by percentage,
a strictly smaller threshold means a strictly smaller percentage. -/
theorem pairwise_pct_lt {l : List TierRule}
    (hp : List.Pairwise (fun a b => tierLE a b ∧
      a.bonusPercentage < b.bonusPercentage) l) :
    ∀ u ∈ l, ∀ v ∈ l, u.minQuantity < v.minQuantity →
      u.bonusPercentage < v.bonusPercentage := by
  induction l with
  | nil => simp
  | cons x xs ih =>
    rcases List.pairwise_cons.mp hp with ⟨hx, hxs⟩
    intro u hu v hv hlt
    rcases List.mem_cons.mp hu with hux | huxs
    · rcases List.mem_cons.mp hv with hvx | hvxs
      · rw [hux, hvx] at hlt
        exact absurd hlt (lt_irrefl _)
      · rw [hux]
        exact (hx v hvxs).2
    · rcases List.mem_cons.mp hv with hvx | hvxs
      · exfalso
        have h1 := (hx u huxs).1
        rw [hvx] at hlt
        exact absurd hlt (not_lt.mpr h1)
      · exact ih hxs u huxs v hvxs hlt

/-- C9 counterexample: `TierConfig` construction accepts a table with
decreasing percentages, on which `getApplicableTier` is not monotone:
quantity 1 resolves to percentage 1 while the larger quantity 5 resolves to
percentage 0. -/
theorem tier_monotonic_counterexample :
    validateAndNormalizeTiers [⟨some 1, some 1⟩, ⟨some 5, some 0⟩] =
      .ok [⟨1, 1⟩, ⟨5, 0⟩] ∧
    scanApplicableTier 1 [⟨1, 1⟩, ⟨5, 0⟩] = some ⟨1, 1⟩ ∧
    scanApplicableTier 5 [⟨1, 1⟩, ⟨5, 0⟩] = some ⟨5, 0⟩ ∧
    ¬ ((⟨1, 1⟩ : NormTier).percentage ≤ (⟨5, 0⟩ : NormTier).percentage) := by
  refine ⟨rfl, rfl, rfl, ?_⟩
  norm_num

/-- C9 amended: for tier collections passing `validateTierRulesLogic`
(distinct thresholds, strictly increasing percentages when sorted), tier
resolution is monotone, and for every collection resolution yields `null`
below the smallest threshold. -/
theorem tier_monotonicity_amended (tiers : List TierRule)
    (hvalid : validateTierRulesLogic tiers = []) :
    (∀ q1 q2 t1 t2, q1 < q2 →
      getApplicableTier q1 tiers = some t1 →
      getApplicableTier q2 tiers = some t2 →
      t1.bonusPercentage ≤ t2.bonusPercentage) ∧
    (∀ q : ℚ, (∀ u ∈ tiers, q < u.minQuantity) → getApplicableTier q tiers = none) := by
  have hcomp := validateTierRulesLogic_eq_nil hvalid
  have hnodupQ : (tiers.map TierRule.minQuantity).Nodup := by
    have h := hcomp.1
    unfold firstDuplicate at h
    exact ((firstDupAux_eq_none _ []).mp h).1
  have hchain : (sortByMinQuantity tiers).Chain'
      (fun a b => a.bonusPercentage < b.bonusPercentage) :=
    (strictIncreaseError_eq_none _).mp hcomp.2
  have hsorted : List.Pairwise tierLE (sortByMinQuantity tiers) :=
    List.sorted_insertionSort tierLE tiers
  have hpw : List.Pairwise (fun a b : TierRule =>
      a.bonusPercentage < b.bonusPercentage) (sortByMinQuantity tiers) :=
    List.chain'_iff_pairwise.mp hchain
  have hand := hsorted.and hpw
  constructor
  · intro q1 q2 t1 t2 hq h1 h2
    rcases getApplicableTier_eq_some h1 with ⟨ht1mem, ht1le, -⟩
    rcases getApplicableTier_eq_some h2 with ⟨ht2mem, -, ht2max⟩
    have hle : t1.minQuantity ≤ t2.minQuantity :=
      ht2max t1 ht1mem (le_trans ht1le (le_of_lt hq))
    rcases eq_or_lt_of_le hle with heq | hlt
    · have ht12 : t1 = t2 := List.inj_on_of_nodup_map hnodupQ ht1mem ht2mem heq
      rw [ht12]
    · have hmem1 : t1 ∈ sortByMinQuantity tiers :=
        (List.perm_insertionSort tierLE tiers).mem_iff.mpr ht1mem
      have hmem2 : t2 ∈ sortByMinQuantity tiers :=
        (List.perm_insertionSort tierLE tiers).mem_iff.mpr ht2mem
      exact le_of_lt (pairwise_pct_lt hand t1 hmem1 t2 hmem2 hlt)
  · intro q h
    exact getApplicableTier_eq_none.mpr h

/-- Witness for C9 amended: a valid two-tier table resolved at 5 and 10. -/
theorem tier_monotonicity_amended_witness :
    validateTierRulesLogic [⟨5, 5⟩, ⟨10, 10⟩] = [] ∧
    (⟨5, 5⟩ : TierRule).bonusPercentage ≤ (⟨10, 10⟩ : TierRule).bonusPercentage := by
  have hv : validateTierRulesLogic [⟨5, 5⟩, ⟨10, 10⟩] = [] := by decide
  refine ⟨hv, ?_⟩
  exact (tier_monotonicity_amended [⟨5, 5⟩, ⟨10, 10⟩] hv).1 5 10 ⟨5, 5⟩ ⟨10, 10⟩
    (by norm_num) (by decide) (by decide)

/-! Section: Payout orchestration (`core/bonus/engine/bonusPayouts.js`) -/

/-- One category line of a seller's breakdown: `{ category, bonus, items }`. -/
structure Breakdown where
  category : String
  bonus : ℚ
  items : List LineItem
deriving DecidableEq

/-- One seller's payout: `{ seller, totalBonus, breakdown }`. -/
structure Payout where
  seller : String
  totalBonus : ℚ
  breakdown : List Breakdown
deriving DecidableEq

/-- The comparator `(a, b) => b.totalBonus - a.totalBonus` (descending sort). -/
def payoutGE (a b : Payout) : Prop := b.totalBonus ≤ a.totalBonus

instance : DecidableRel payoutGE := fun a b => inferInstanceAs (Decidable (b.totalBonus ≤ a.totalBonus))

instance : IsTotal Payout payoutGE := ⟨fun a b => le_total b.totalBonus a.totalBonus⟩

instance : IsTrans Payout payoutGE := ⟨fun _ _ _ h h2 => le_trans h2 h⟩

/-- The inner loop body of `BonusPayouts.calculateBonuses`: skip categories
without a calculator; run `calculateBonus`; keep the category only when its
total bonus is positive.  All calculators built by the service share the
same `BonusCalculator.calculateBonus`, so the calculator map is embedded as
the list of category names that have one. -/
def payoutStep (calcs : List String) (acc : ℚ × List Breakdown)
    (cd : String × List Sale) : ℚ × List Breakdown :=
  if calcs.contains cd.1 then
    if 0 < (calculateBonus cd.2).totalBonus then
      (acc.1 + (calculateBonus cd.2).totalBonus,
        acc.2 ++ [⟨cd.1, (calculateBonus cd.2).totalBonus, (calculateBonus cd.2).items⟩])
    else acc
  else acc

/-- `BonusPayouts.calculateBonuses`: per seller, fold over the categories,
keep the seller only when the total is positive, sort descending by
`totalBonus`. -/
def calculateBonuses (calcs : List String)
    (aggregatedSales : List (String × List (String × List Sale))) : List Payout :=
  List.insertionSort payoutGE
    (aggregatedSales.filterMap (fun s =>
      if 0 < (s.2.foldl (payoutStep calcs) (0, [])).1 then
        some ⟨s.1, (s.2.foldl (payoutStep calcs) (0, [])).1,
          (s.2.foldl (payoutStep calcs) (0, [])).2⟩
      else none))

/-- Categories without a calculator do not change the fold. -/
theorem payoutFold_filter (calcs : List String) :
    ∀ (cats : List (String × List Sale)) (acc : ℚ × List Breakdown),
      cats.foldl (payoutStep calcs) acc =
        (cats.filter (fun cd => calcs.contains cd.1)).foldl (payoutStep calcs) acc := by
  intro cats
  induction cats with
  | nil => intro acc; rfl
  | cons cd rest ih =>
    intro acc
    rw [List.foldl_cons, List.filter_cons]
    by_cases hc : calcs.contains cd.1
    · rw [if_pos hc, List.foldl_cons, ih]
    · have hstep : payoutStep calcs acc cd = acc := by
        unfold payoutStep
        rw [if_neg (by simpa using hc)]
      rw [hstep, if_neg (by simpa using hc), ih]

/-- Every breakdown entry produced by the fold is either inherited from the
accumulator or comes from one input category with a positive bonus. -/
theorem payoutFold_mem (calcs : List String) :
    ∀ (cats : List (String × List Sale)) (acc : ℚ × List Breakdown) (b : Breakdown),
      b ∈ (cats.foldl (payoutStep calcs) acc).2 →
        b ∈ acc.2 ∨ ∃ cd ∈ cats,
          b = ⟨cd.1, (calculateBonus cd.2).totalBonus, (calculateBonus cd.2).items⟩ ∧
          0 < (calculateBonus cd.2).totalBonus := by
  intro cats
  induction cats with
  | nil => intro acc b h; exact Or.inl h
  | cons cd rest ih =>
    intro acc b h
    rw [List.foldl_cons] at h
    rcases ih (payoutStep calcs acc cd) b h with hacc | ⟨cd2, hcd2, hb, hpos⟩
    · unfold payoutStep at hacc
      by_cases hc : calcs.contains cd.1
      · rw [if_pos hc] at hacc
        by_cases hp : 0 < (calculateBonus cd.2).totalBonus
        · rw [if_pos hp] at hacc
          simp only [List.mem_append, List.mem_singleton] at hacc
          rcases hacc with hacc | rfl
          · exact Or.inl hacc
          · exact Or.inr ⟨cd, List.mem_cons_self cd rest, rfl, hp⟩
        · rw [if_neg hp] at hacc
          exact Or.inl hacc
      · rw [if_neg hc] at hacc
        exact Or.inl hacc
    · exact Or.inr ⟨cd2, List.mem_cons_of_mem cd hcd2, hb, hpos⟩

/-- C10: a category whose name has no calculator contributes nothing: the
result is the same as if those categories were removed from the input, and
no error is raised; concretely (mirroring the repository's own test), one
sale in an unconfigured category yields no payout at all. -/
theorem missing_calculator_skipped (calcs : List String)
    (aggregatedSales : List (String × List (String × List Sale))) :
    calculateBonuses calcs aggregatedSales =
      calculateBonuses calcs (aggregatedSales.map
        (fun s => (s.1, s.2.filter (fun cd => calcs.contains cd.1)))) ∧
    calculateBonuses ["steak", "cocktail"]
      [("Alice", [("dessert", [⟨some "Cake", 5, 100, some ⟨5, some 10⟩⟩])])] = [] := by
  constructor
  · unfold calculateBonuses
    rw [List.filterMap_map]
    congr 1
    apply List.filterMap_congr
    intro s _
    simp only [Function.comp]
    rw [← payoutFold_filter]
  · decide

/-- C4 counterexample: a participant whose only sales fact does not qualify
(bonus 0) vanishes from the report entirely: no payout entry and no line
item is emitted for them. -/
theorem audit_completeness_counterexample :
    calculateBonuses ["steak"]
      [("Alice", [("steak", [⟨some "Ribeye", 1, 50, none⟩])])] = [] := by
  decide

/-- C4 amended: the report keeps only sellers with a positive total and only
categories with a positive bonus; within a kept category the audit trail is
complete: the items are exactly `calculateBonus`'s items, one line item per
sales fact. -/
theorem audit_completeness_amended (calcs : List String)
    (sales : List (String × List (String × List Sale))) :
    ∀ p ∈ calculateBonuses calcs sales,
      0 < p.totalBonus ∧
      ∀ b ∈ p.breakdown, 0 < b.bonus ∧
        ∃ s ∈ sales, s.1 = p.seller ∧
          ∃ cd ∈ s.2, cd.1 = b.category ∧
            b.bonus = (calculateBonus cd.2).totalBonus ∧
            b.items = (calculateBonus cd.2).items ∧
            b.items.length = cd.2.length := by
  intro p hp
  have hp2 : p ∈ sales.filterMap (fun s =>
      if 0 < (s.2.foldl (payoutStep calcs) (0, [])).1 then
        some ⟨s.1, (s.2.foldl (payoutStep calcs) (0, [])).1,
          (s.2.foldl (payoutStep calcs) (0, [])).2⟩
      else none) := by
    unfold calculateBonuses at hp
    exact (List.perm_insertionSort payoutGE _).subset hp
  rcases List.mem_filterMap.mp hp2 with ⟨s, hs, hfs⟩
  by_cases hpos : 0 < (s.2.foldl (payoutStep calcs) (0, [])).1
  swap
  · rw [if_neg hpos] at hfs
    exact absurd hfs (by simp)
  rw [if_pos hpos] at hfs
  have hps : p = ⟨s.1, (s.2.foldl (payoutStep calcs) (0, [])).1,
      (s.2.foldl (payoutStep calcs) (0, [])).2⟩ := (Option.some_injective _ hfs).symm
  constructor
  · rw [hps]
    exact hpos
  · intro b hb
    have hbmem : b ∈ (s.2.foldl (payoutStep calcs) (0, [])).2 := by
      rw [hps] at hb
      exact hb
    rcases payoutFold_mem calcs s.2 (0, []) b hbmem with habs | ⟨cd, hcd, hbeq, hbpos⟩
    · exact absurd habs (by simp)
    · refine ⟨by rw [hbeq]; exact hbpos, s, hs, by rw [hps], cd, hcd, ?_, ?_, ?_, ?_⟩
      · rw [hbeq]
      · rw [hbeq]
      · rw [hbeq]
      · rw [hbeq]
        have := calculateBonus_eq cd.2
        rw [this]
        simp

/-- Witness for C4 amended: one qualifying sale (tier 5+, 10% on 500). -/
theorem audit_completeness_amended_witness :
    ∃ p, calculateBonuses ["steak"]
        [("Alice", [("steak", [⟨some "Ribeye", 5, 500, some ⟨5, some 10⟩⟩])])] = [p] ∧
      0 < p.totalBonus := by
  have htb : (calculateBonus [⟨some "Ribeye", 5, 500, some ⟨5, some 10⟩⟩]).totalBonus =
      50 := by
    norm_num [calculateBonus, calculateBonusStep, saleQualifier]
  have heval : calculateBonuses ["steak"]
      [("Alice", [("steak", [⟨some "Ribeye", 5, 500, some ⟨5, some 10⟩⟩])])] =
      [⟨"Alice", 50,
        [⟨"steak", 50,
          (calculateBonus [⟨some "Ribeye", 5, 500, some ⟨5, some 10⟩⟩]).items⟩]⟩] := by
    unfold calculateBonuses payoutStep
    simp only [List.filterMap_cons, List.filterMap_nil, List.foldl_cons, List.foldl_nil]
    norm_num [htb, List.insertionSort, List.orderedInsert]
  refine ⟨⟨"Alice", 50,
    [⟨"steak", 50, (calculateBonus [⟨some "Ribeye", 5, 500, some ⟨5, some 10⟩⟩]).items⟩]⟩,
    heval, ?_⟩
  have h := (audit_completeness_amended ["steak"]
    [("Alice", [("steak", [⟨some "Ribeye", 5, 500, some ⟨5, some 10⟩⟩])])]
    ⟨"Alice", 50,
      [⟨"steak", 50, (calculateBonus [⟨some "Ribeye", 5, 500, some ⟨5, some 10⟩⟩]).items⟩]⟩
    (by rw [heval]; exact List.mem_singleton.mpr rfl)).1
  exact h

/-! Section: The bonus service (`core/bonus/services/bonusService.js`, current
variant).  The embedding covers the payout-relevant core of
`calculateAllBonuses` after the data has been fetched: the forecast check,
the per-participant/per-category grouping, the aggregation, the payout
computation, and the final mapping that forces `amount` to `0` when the
forecast is not met.  The data-completeness reporting and the
tier-rule-presence guard, which do not affect the claims above, are not
modelled. -/

/-- A stored forecast: `{ targetAmount, threshold }` (threshold validated by
the forecasts API to lie in `[0,1]`). -/
structure Forecast where
  targetAmount : ℚ
  threshold : ℚ
deriving DecidableEq

/-- A category as fetched with its tier rules. -/
structure Category where
  name : String
  mode : String
  tierRules : List TierRule

/-- A receipt as fetched by the service (with its joined product/category). -/
structure ServiceReceipt where
  participantId : String
  categoryName : String
  productName : String
  price : ℚ
deriving DecidableEq

/-- View of a tier rule as the tier object carried by a sales fact. -/
def tierAsSaleTier (t : TierRule) : SaleTier := ⟨t.minQuantity, some t.bonusPercentage⟩

/-- `Array.isArray(salesData) ? salesData : [salesData]`: the PER CATEGORY
object is wrapped into a one-element array; fields are read as
`BonusCalculator.calculateBonus` reads them (`productName` is absent on the
PER CATEGORY object). -/
def toSales : FormatResult → List Sale
  | .fact f => [⟨none, f.quantity, f.revenue, f.tier.map tierAsSaleTier⟩]
  | .facts l => l.map (fun i => ⟨some i.productName, i.quantity, i.revenue,
      i.tier.map tierAsSaleTier⟩)

/-- Append a receipt to one participant's per-category bucket (JS object,
insertion order). -/
def upsertCat (cats : List (String × List ServiceReceipt)) (c : String)
    (r : ServiceReceipt) : List (String × List ServiceReceipt) :=
  match cats with
  | [] => [(c, [r])]
  | e :: rest => if e.1 = c then (e.1, e.2 ++ [r]) :: rest else e :: upsertCat rest c r

/-- Append a receipt to the nested participant → category → receipts map. -/
def upsertPid (m : List (String × List (String × List ServiceReceipt)))
    (pid c : String) (r : ServiceReceipt) :
    List (String × List (String × List ServiceReceipt)) :=
  match m with
  | [] => [(pid, upsertCat [] c r)]
  | e :: rest => if e.1 = pid then (e.1, upsertCat e.2 c r) :: rest
      else e :: upsertPid rest pid c r

/-- The grouping loop of `calculateAllBonuses`:
`aggregatedReceipts[pid][categoryName].push(receipt)`. -/
def groupReceipts (receipts : List ServiceReceipt) :
    List (String × List (String × List ServiceReceipt)) :=
  receipts.foldl (fun m r => upsertPid m r.participantId r.categoryName r) []

/-- The receipt fields the aggregator reads. -/
def toUtilReceipt (r : ServiceReceipt) : Receipt := ⟨r.productName, r.price⟩

/-- One service payout row: `amount` is the paid amount (forced to `0` when
the forecast is not met) and `potentialBonus` the computed bonus. -/
structure ServicePayout where
  participantId : String
  amount : ℚ
  potentialBonus : ℚ
  breakdown : List Breakdown
deriving DecidableEq

/-- The final `sort((a, b) => b.potentialBonus - a.potentialBonus)`. -/
def servicePayoutGE (a b : ServicePayout) : Prop := b.potentialBonus ≤ a.potentialBonus

instance : DecidableRel servicePayoutGE := fun a b => inferInstanceAs (Decidable (b.potentialBonus ≤ a.potentialBonus))

instance : IsTotal ServicePayout servicePayoutGE := ⟨fun a b => le_total b.potentialBonus a.potentialBonus⟩

instance : IsTrans ServicePayout servicePayoutGE := ⟨fun _ _ _ h h2 => le_trans h2 h⟩

/-- The payout core of `BonusService.calculateAllBonuses` (current variant):
check the forecast, group the receipts, aggregate each participant's
categories (skipping category names with no configuration), run
`BonusPayouts.calculateBonuses` with one calculator per configured
category, and map to the service rows with
`amount = forecastMet ? totalBonus : 0` and `potentialBonus = totalBonus`.
Returns `(forecastMet, payouts)`. -/
def calculateAllBonuses (forecast : Forecast) (receipts : List ServiceReceipt)
    (categories : List Category) (totalRevenue : ℚ) :
    Bool × List ServicePayout :=
  let forecastMet := isForecastMet forecast.threshold forecast.targetAmount totalRevenue
  let aggregatedSales :=
    (groupReceipts receipts).map (fun p =>
      (p.1, p.2.filterMap (fun c =>
        match categories.find? (fun cat => decide (cat.name = c.1)) with
        | some cat => some (c.1,
            toSales (formatDataForCalculation (c.2.map toUtilReceipt) cat.mode cat.tierRules))
        | none => none)))
  let payoutsArray := calculateBonuses (categories.map Category.name) aggregatedSales
  let payouts := payoutsArray.map (fun p =>
    (⟨p.seller, if forecastMet then p.totalBonus else 0, p.totalBonus,
      p.breakdown⟩ : ServicePayout))
  (forecastMet, List.insertionSort servicePayoutGE payouts)

/-- C5: with a forecast of 50000 at stored threshold 0.9 and a total revenue
of 100, the gate reports the forecast as not met, yet the service still
computes a per-participant payout and returns it (with `amount` forced to
`0` and `potentialBonus = 50`) instead of returning an empty payout list:
no short-circuit happens. -/
theorem forecast_gate_no_short_circuit :
    (calculateAllBonuses ⟨50000, 9/10⟩ [⟨"p1", "steak", "Ribeye", 500⟩]
        [⟨"steak", "PER ITEM", [⟨1, 10⟩]⟩] 100).1 = false ∧
    ((calculateAllBonuses ⟨50000, 9/10⟩ [⟨"p1", "steak", "Ribeye", 500⟩]
        [⟨"steak", "PER ITEM", [⟨1, 10⟩]⟩] 100).2).map ServicePayout.amount = [0] ∧
    ((calculateAllBonuses ⟨50000, 9/10⟩ [⟨"p1", "steak", "Ribeye", 500⟩]
        [⟨"steak", "PER ITEM", [⟨1, 10⟩]⟩] 100).2).map
      ServicePayout.potentialBonus = [50] := by
  have hfm : isForecastMet (9/10) 50000 100 = false := by
    simp only [isForecastMet, decide_eq_false_iff_not]
    norm_num
  have htb : (calculateBonus [⟨some "Ribeye", 1, 500, some ⟨1, some 10⟩⟩]).totalBonus =
      50 := by
    norm_num [calculateBonus, calculateBonusStep, saleQualifier]
  have haggr : calculateBonuses ["steak"]
      [("p1", [("steak", [⟨some "Ribeye", 1, 500, some ⟨1, some 10⟩⟩])])] =
      [⟨"p1", 50, [⟨"steak", 50,
        (calculateBonus [⟨some "Ribeye", 1, 500, some ⟨1, some 10⟩⟩]).items⟩]⟩] := by
    unfold calculateBonuses payoutStep
    simp only [List.filterMap_cons, List.filterMap_nil, List.foldl_cons, List.foldl_nil]
    norm_num [htb, List.insertionSort, List.orderedInsert]
  have hpipe : (calculateAllBonuses ⟨50000, 9/10⟩ [⟨"p1", "steak", "Ribeye", 500⟩]
      [⟨"steak", "PER ITEM", [⟨1, 10⟩]⟩] 100).2 =
      List.insertionSort servicePayoutGE
        ((calculateBonuses ["steak"]
          [("p1", [("steak", [⟨some "Ribeye", 1, 500, some ⟨1, some 10⟩⟩])])]).map
          (fun p => (⟨p.seller, if isForecastMet (9/10) 50000 100 then p.totalBonus else 0,
            p.totalBonus, p.breakdown⟩ : ServicePayout))) := by
    rfl
  refine ⟨hfm, ?_, ?_⟩
  · rw [hpipe, haggr, hfm]
    simp [List.insertionSort, List.orderedInsert]
  · rw [hpipe, haggr, hfm]
    simp [List.insertionSort, List.orderedInsert]

/-- C1: The "forecast gate" divergence. The spec claims
`requiredRevenue = targetAmount * threshold` with the stored `threshold` a
fraction in `[0,1]` (the forecasts API validates `0 <= threshold <= 1`,
"e.g., 0.9 for 90%"), so `targetAmount=50000, threshold=0.9, totalRevenue=44999`
should give `forecastMet = false`.  The code divides the stored threshold by
100 a second time, so the required revenue is `450` and the gate reports the
forecast as met. -/
theorem forecast_gate_divergence :
    isForecastMet (9/10) 50000 44999 = true ∧ ¬ ((50000 : ℚ) * (9/10) ≤ 44999) := by
  constructor
  · simp only [isForecastMet, decide_eq_true_eq]
    norm_num
  · norm_num

end TopShelf
